import Mathlib

/-!
Shallow embedding of the DustyVideoSummarizer pipeline
(`src/archived/convert-debug-1742941635078.cjs` and `src/compress.cjs`).

JavaScript runtime values that flow out of `JSON.parse` are modelled by
`JVal`; JS numbers are modelled as rationals (every numeric literal the
claims exercise is an exact double).  Strings are modelled through their
character lists; the per-character operations used by the source (regex
character classes, `toLowerCase`, suffix tests) are defined over
`List Char`.
-/

namespace Dusty

/-- A JavaScript value as produced by `JSON.parse` (the subset the scripts
inspect).  JS numbers are modelled as rationals. -/
inductive JVal where
  | vnull : JVal
  | vbool (b : Bool) : JVal
  | vnum (q : ℚ) : JVal
  | vstr (s : String) : JVal
deriving DecidableEq

/-- JS truthiness for the modelled values (`!x` in the source is
`!x.truthy` here).  `undefined` (an absent field) is modelled as
`Option.none` at use sites and is falsy like `vnull`. -/
def JVal.truthy : JVal → Bool
  | .vnull => false
  | .vbool b => b
  | .vnum q => decide (q ≠ 0)
  | .vstr s => decide (s ≠ "")

/-! ## Character-list string utilities -/

/-- Membership of the regex class `[a-z0-9-]` used by
`generateShortName`'s sanitizer (codepoint ranges, as in JS). -/
def isSlugChar (c : Char) : Bool :=
  (decide (97 ≤ c.toNat) && decide (c.toNat ≤ 122)) ||
  (decide (48 ≤ c.toNat) && decide (c.toNat ≤ 57)) ||
  decide (c.toNat = 45)

/-- The substitution `replace` of every character outside `[a-z0-9-]` by a hyphen. -/
def hyphenate (l : List Char) : List Char :=
  l.map fun c => if isSlugChar c then c else '-'

/-- Collapse runs of the character `t` to a single `t` (the source's
hyphen-run collapse with `t = '-'`, and its whitespace-run collapse
with `t = ' '`). -/
def collapseChar (t : Char) : List Char → List Char
  | [] => []
  | c :: rest =>
    let r := collapseChar t rest
    if c = t ∧ r.head? = some t then r else c :: r

/-- Drop one leading hyphen (the `^-` alternative of
`replace(/^-|-$/g, "")`). -/
def dropLeadH : List Char → List Char
  | [] => []
  | c :: rest => if c = '-' then rest else c :: rest

/-- Drop one trailing hyphen (the `-$` alternative of
`replace(/^-|-$/g, "")`). -/
def dropTrailH : List Char → List Char
  | [] => []
  | [c] => if c = '-' then [] else [c]
  | c :: d :: rest => c :: dropTrailH (d :: rest)

/-- The slug sanitization chain of `generateShortName`
(`convert-debug-…cjs:77-84`): lowercase, replace characters outside
`[a-z0-9-]` by `-`, collapse `-` runs, strip one leading and one
trailing `-` (on a collapsed list this is exactly `/^-|-$/g`). -/
def sanitizeL (l : List Char) : List Char :=
  dropTrailH (dropLeadH (collapseChar '-' (hyphenate (l.map Char.toLower))))

/-- String wrapper for `sanitizeL`. -/
def sanitizeSlug (s : String) : String :=
  String.mk (sanitizeL s.toList)

/-- Boolean list equality test on characters, used by the substring
machinery below. -/
def isPrefixL : List Char → List Char → Bool
  | [], _ => true
  | _ :: _, [] => false
  | a :: as, b :: bs => a == b && isPrefixL as bs

/-- Does `sub` occur somewhere inside `l` (JS `String.includes`)? -/
def containsL (sub : List Char) : List Char → Bool
  | [] => sub.isEmpty
  | c :: rest => isPrefixL sub (c :: rest) || containsL sub rest

/-- JS `a.includes(b)` on strings. -/
def strIncludes (s sub : String) : Bool :=
  containsL sub.toList s.toList

/-- JS `s.endsWith(suffix)` / the anchored regex `\.mov$` test, modelled
over character lists. -/
def endsWithL (s suffix : String) : Bool :=
  isPrefixL suffix.toList.reverse s.toList.reverse

/-- JS `s.startsWith(p)`, modelled over character lists. -/
def startsWithL (s p : String) : Bool :=
  isPrefixL p.toList s.toList

/-- Lowercase a string per character (`toLowerCase` restricted to ASCII,
which is all the sources rely on). -/
def strLower (s : String) : String :=
  String.mk (s.toList.map Char.toLower)

/-- Drop the last `n` characters of a string. -/
def strDropRight (s : String) (n : Nat) : String :=
  String.mk (s.toList.take (s.toList.length - n))

/-- JS `String.prototype.trim` (ASCII whitespace, which is all the
pipeline produces), modelled over character lists. -/
def strTrim (s : String) : String :=
  String.mk
    (((s.toList.dropWhile Char.isWhitespace).reverse.dropWhile
      Char.isWhitespace).reverse)

/-- Split a character list at `/` separators. -/
def splitSlash : List Char → List (List Char)
  | [] => [[]]
  | c :: rest =>
    match splitSlash rest with
    | [] => [[c]]
    | h :: t => if c = '/' then [] :: h :: t else (c :: h) :: t

/-- Node `path.basename(p)`: the component after the last `/`. -/
def basenameStr (p : String) : String :=
  String.mk ((splitSlash p.toList).getLastD [])

/-- Node `path.basename(p, ".mov")`: the basename with a trailing
case-sensitive `.mov` stripped, unless the whole basename is `.mov`. -/
def basenameDropMov (p : String) : String :=
  let b := basenameStr p
  if endsWithL b ".mov" && b != ".mov" then strDropRight b 4 else b

/-- Node `path.dirname(p)` for slash-separated paths without trailing
slashes (the only shape the pipeline produces); a bare filename maps to
`"."` as in Node. -/
def dirname (p : String) : String :=
  match (splitSlash p.toList).dropLast with
  | [] => "."
  | parts => String.mk (List.intercalate ['/'] parts)

/-- Node `path.extname(p)`: the suffix of the basename from its last
dot; a dot at position 0 of the basename does not start an extension. -/
def lastDotSuffix : List Char → List Char
  | [] => []
  | c :: rest =>
    match lastDotSuffix rest with
    | [] => if c = '.' then c :: rest else []
    | r => r

/-- Node `path.extname`. -/
def extname (p : String) : String :=
  match (basenameStr p).toList with
  | [] => ""
  | _ :: rest => String.mk (lastDotSuffix rest)

/-- JS `file.replace(/\.mov$/, ".mp4")` — case-sensitive substitution of
a literal trailing `.mov` (`compress.cjs`, clobber-mode final move). -/
def replaceMovSuffix (f : String) : String :=
  if endsWithL f ".mov" then strDropRight f 4 ++ ".mp4" else f

/-! ## Content Analyzer (`convert-debug-…cjs`) -/

/-- The fields of the JSON object the model returns to
`analyzeInitialFrame`, after `JSON.parse` succeeded.  `none` is an
absent field (JS `undefined`). -/
structure RawAnalysis where
  description : Option JVal
  needsTranscript : Option JVal
  additionalKeyframes : Option JVal
deriving DecidableEq

/-- The validated result of `analyzeInitialFrame` (`…cjs:471-505`):
`description`, `needsTranscript`, `additionalKeyframes` plus the probed
`duration` carried through. -/
structure AnalysisResult where
  description : JVal
  needsTranscript : Bool
  additionalKeyframes : ℚ
  duration : ℚ
deriving DecidableEq

/-- Parse-and-validate step of `analyzeInitialFrame`
(`convert-debug-…cjs:471-505`).  The raw parsed object first gets
`needsTranscript` overwritten with `true` when `duration > 5`, then the
validation runs: truthy `description`, boolean `needsTranscript`,
numeric `additionalKeyframes` within `[0,4]`; any mismatch throws
`"Failed to get valid analysis from OpenAI"`. -/
def analyzeInitialFrame (duration : ℚ) (raw : RawAnalysis) :
    Except String AnalysisResult :=
  let analysis :=
    if duration > 5 then { raw with needsTranscript := some (JVal.vbool true) }
    else raw
  match analysis.description, analysis.needsTranscript,
        analysis.additionalKeyframes with
  | some d, some (JVal.vbool b), some (JVal.vnum k) =>
    if d.truthy && !(decide (k < 0)) && !(decide (k > 4)) then
      .ok { description := d, needsTranscript := b,
            additionalKeyframes := k, duration := duration }
    else .error "Failed to get valid analysis from OpenAI"
  | _, _, _ => .error "Failed to get valid analysis from OpenAI"

/-- The fields of the JSON object the model returns to
`determineImportance`, after `JSON.parse` succeeded. -/
structure RawImportance where
  importance : Option JVal
  reason : Option JVal
  fullDescription : Option JVal
deriving DecidableEq

/-- The validated result of `determineImportance`.  The source checks
only `typeof importance === "number"` together with truthiness and the
range `[1,9]`; `reason` and `fullDescription` are merely required to be
truthy, so they stay `JVal`s here. -/
structure ImportanceResult where
  importance : ℚ
  reason : JVal
  fullDescription : JVal
deriving DecidableEq

/-- Parse-and-validate step of `determineImportance`
(`convert-debug-…cjs:583-611`): all three fields truthy, `importance` a
number with `1 ≤ importance ≤ 9`; otherwise it throws.  Note that no
integrality check occurs. -/
def determineImportance (raw : RawImportance) :
    Except String ImportanceResult :=
  match raw.importance.getD JVal.vnull, raw.reason.getD JVal.vnull,
        raw.fullDescription.getD JVal.vnull with
  | JVal.vnum q, rsn, fd =>
    if (JVal.vnum q).truthy && rsn.truthy && fd.truthy &&
       !(decide (q < 1)) && !(decide (q > 9)) then
      .ok { importance := q, reason := rsn, fullDescription := fd }
    else .error "Failed to get valid analysis from OpenAI"
  | _, _, _ => .error "Failed to get valid analysis from OpenAI"

/-- JS number to string for the template literal in `generateShortName`.
Faithful for integral values (the only values any theorem relies on);
fractional values keep Lean's rational rendering. -/
def jsNumToString (q : ℚ) : String :=
  if q.den = 1 then toString q.num else toString q

/-- JS string interpolation of a modelled value (template literals in
the source coerce whatever the parsed JSON held). -/
def jsValToString : JVal → String
  | .vnull => "null"
  | .vbool b => if b then "true" else "false"
  | .vnum q => jsNumToString q
  | .vstr s => s

/-- Function `generateShortName` (`convert-debug-…cjs:43-85`): the model's reply
is trimmed and sanitized, then composed as
`{importance}_{slug}-{guid}` where `guid` is the 4-character random
suffix from `generateShortGuid`. -/
def generateShortName (modelReply : String) (importance : ℚ)
    (guid : String) : String :=
  jsNumToString importance ++ "_" ++ sanitizeSlug (strTrim modelReply)
    ++ "-" ++ guid

/-- The cleaning applied to the Finder-comment text inside
`setMacMetadataXattr` (`convert-debug-…cjs:282-286`): quotes and
backslashes become `'`, newlines and tabs become spaces, space runs
collapse, ends trimmed.  (The source's whitespace-run regex also covers
exotic Unicode whitespace; only the characters produced by the pipeline
are modelled.) -/
def cleanComment (s : String) : String :=
  let l1 := s.toList.map fun c =>
    if c = '\\' ∨ c = '"' ∨ c = '\'' then '\'' else c
  let l2 := l1.map fun c =>
    if c = '\n' ∨ c = '\r' ∨ c = '\t' then ' ' else c
  strTrim (String.mk (collapseChar ' ' l2))

/-! ## Pipeline Orchestrator (`processVideo`, `convert-debug-…cjs:613-701`)

The stateful parts of one `processVideo` call are modelled as a pure
function on a `PvState` (the two append-only stores, the asset's path
and its Finder comment).  Everything the external world decides — the
AI replies, transcription outcome, whether `fs.rename` or the
`osascript` comment write succeed — arrives through `PvOracles`. -/

/-- One persisted summary object (`convert-debug-…cjs:669-681`), also
the unit appended to the text log (the text block is a rendering of
exactly these fields, so both stores are modelled as lists of
records). -/
structure SummaryRecord where
  filename : String
  original_name : String
  rating : ℚ
  reason : JVal
  duration_seconds : ℚ
  description : JVal
  additional_descriptions : List String
  transcript : Option String
  processed_at : String
  path : String
deriving DecidableEq

/-- The filesystem-visible state one `processVideo` call can touch. -/
structure PvState where
  txtStore : List SummaryRecord
  jsonStore : List SummaryRecord
  filePath : String
  comment : String
deriving DecidableEq

/-- Function `hasMetadata` (`convert-debug-…cjs:378-393`): the Finder comment is
read back, trimmed, and tested for non-emptiness. -/
def hasMetadata (st : PvState) : Bool :=
  decide (strTrim st.comment ≠ "")

/-- External outcomes consumed by one `processVideo` call.  An `.error`
models the corresponding stage throwing (ffmpeg, network, JSON.parse);
`frames` is the list of descriptions obtained for the extra keyframes
when they are requested. -/
structure PvOracles where
  probeDuration : ℚ
  rawAnalysis : Except String RawAnalysis
  transcribeResult : Except String String
  frames : Except String (List String)
  rawImportance : Except String RawImportance
  nameReply : String
  guid : String
  timestamp : String
  renameOk : Bool
  commentOk : Bool

/-- Function `processVideo` (`convert-debug-…cjs:613-701`): skip when not forced
and a comment is present; otherwise run probe analysis, conditional
transcription, conditional extra-frame description, importance, naming;
then commit: append the record to the text and JSON stores
(`writeSummaryFile`), rename the asset, and set the Finder comment
(`setMacMetadataXattr` swallows its own failures).  Returns the new
state and `some errorMessage` when the call throws. -/
def processVideo (force : Bool) (o : PvOracles) (st : PvState) :
    PvState × Option String :=
  if !force && hasMetadata st then (st, none)
  else
    match o.rawAnalysis.bind (analyzeInitialFrame o.probeDuration) with
    | .error e => (st, some e)
    | .ok a =>
      match if a.needsTranscript then o.transcribeResult else .ok "" with
      | .error e => (st, some e)
      | .ok transcript =>
        match if a.additionalKeyframes > 0 then o.frames
              else .ok ([] : List String) with
        | .error e => (st, some e)
        | .ok descriptions =>
          match o.rawImportance.bind determineImportance with
          | .error e => (st, some e)
          | .ok imp =>
            let newFileName :=
              generateShortName o.nameReply imp.importance o.guid
                ++ extname st.filePath
            let newPath := dirname st.filePath ++ "/" ++ newFileName
            let summary : SummaryRecord :=
              { filename := newFileName,
                original_name := basenameStr st.filePath,
                rating := imp.importance,
                reason := imp.reason,
                duration_seconds := a.duration,
                description := imp.fullDescription,
                additional_descriptions := descriptions,
                transcript :=
                  if transcript = "" then none else some transcript,
                processed_at := o.timestamp,
                path := newPath }
            let st1 := { st with
              txtStore := st.txtStore ++ [summary],
              jsonStore := st.jsonStore ++ [summary] }
            if o.renameOk then
              let st2 := { st1 with filePath := newPath }
              let commentText := cleanComment
                (jsValToString imp.fullDescription
                 ++ "\n\nImportance: " ++ jsNumToString imp.importance
                 ++ "/9 - " ++ jsValToString imp.reason)
              let st3 :=
                if o.commentOk then { st2 with comment := commentText }
                else st2
              (st3, none)
            else (st1, some "rename failed")

/-- Does the run get past every pre-commit stage (skip check, probe
analysis, transcription, extra frames, importance)?  When this holds
the record append happens regardless of the rename or comment
outcomes, because `writeSummaryFile` runs first. -/
def reachesCommit (force : Bool) (o : PvOracles) (st : PvState) : Bool :=
  if !force && hasMetadata st then false
  else
    match o.rawAnalysis.bind (analyzeInitialFrame o.probeDuration) with
    | .error _ => false
    | .ok a =>
      (match if a.needsTranscript then o.transcribeResult else .ok "" with
       | .error _ => false
       | .ok _ =>
         (match if a.additionalKeyframes > 0 then o.frames
                else .ok ([] : List String) with
          | .error _ => false
          | .ok _ =>
            (match o.rawImportance.bind determineImportance with
             | .error _ => false
             | .ok _ => true)))

/-! ## Compression Stage (`compress.cjs`, the retry-enabled variant)

`compressVideo(inputPath, outputPath, retryCount)` runs four stages in
order on each call: the removable-drive check (throws, never retried),
the `fs.access` readability check (any failure retried while
`retryCount < MAX_RETRIES`), the `ffprobe` metadata read (likewise
retried on any failure), and the ffmpeg encode (retried only when the
error message matches one of the transient substrings).  Each retry
waits `RETRY_DELAY` and re-enters the function with `retryCount + 1`. -/

/-- Outcome of one stage of one attempt. -/
inductive StageOutcome where
  | ok : StageOutcome
  | err (msg : String) : StageOutcome
deriving DecidableEq

/-- The outcomes of the four stages of the attempt at a given
`retryCount`. -/
structure AttemptSpec where
  drive : StageOutcome
  access : StageOutcome
  meta : StageOutcome
  encode : StageOutcome
deriving DecidableEq

/-- Summary of a `compressVideo` call tree: whether it succeeded, how
many attempts ran, how many `RETRY_DELAY` waits were logged, and the
final error message if any. -/
structure CompressResult where
  success : Bool
  attempts : Nat
  waits : Nat
  error : Option String
deriving DecidableEq

/-- Constant `MAX_RETRIES` (`compress.cjs:213`). -/
def MAX_RETRIES : Nat := 3

/-- The transient-error classification of `compress.cjs:452-457`:
substring match of the error description against `"ECANCELED"`,
`"read"`, `"I/O"`, `"operation canceled"`. -/
def isTransient (msg : String) : Bool :=
  strIncludes msg "ECANCELED" || strIncludes msg "read" ||
  strIncludes msg "I/O" || strIncludes msg "operation canceled"

/-- Prefix one more attempt (and one retry wait) onto a result. -/
def CompressResult.afterRetry (r : CompressResult) : CompressResult :=
  { r with attempts := r.attempts + 1, waits := r.waits + 1 }

/-- Function `compressVideo` retry structure (`compress.cjs:299-473`), with the
per-attempt stage outcomes supplied by `att`. -/
def compressVideo (att : Nat → AttemptSpec) (retryCount : Nat) :
    CompressResult :=
  match (att retryCount).drive with
  | .err m =>
    { success := false, attempts := 1, waits := 0, error := some m }
  | .ok =>
  match (att retryCount).access with
  | .err m =>
    if h : retryCount ≥ MAX_RETRIES then
      { success := false, attempts := 1, waits := 0,
        error := some ("Failed to access input file after 3 attempts: "
          ++ m) }
    else (compressVideo att (retryCount + 1)).afterRetry
  | .ok =>
  match (att retryCount).meta with
  | .err m =>
    if h : retryCount ≥ MAX_RETRIES then
      { success := false, attempts := 1, waits := 0,
        error := some ("Failed to get video metadata after 3 attempts: "
          ++ m) }
    else (compressVideo att (retryCount + 1)).afterRetry
  | .ok =>
  match (att retryCount).encode with
  | .err m =>
    if h : retryCount < MAX_RETRIES ∧ isTransient m = true then
      (compressVideo att (retryCount + 1)).afterRetry
    else
      { success := false, attempts := 1, waits := 0, error := some m }
  | .ok => { success := true, attempts := 1, waits := 0, error := none }
termination_by MAX_RETRIES + 1 - retryCount
decreasing_by
  all_goals simp only [MAX_RETRIES] at *
  all_goals omega

/-! ## Compression batch, clobber mode (`compress.cjs:475-584`)

The per-file body of the clobber branch is modelled on a small
filesystem: a list of present file paths (removal removes every
occurrence, so duplicates are harmless) and a list of present
directories. -/

/-- Remove a path. -/
def removeP (files : List String) (p : String) : List String :=
  files.filter (· ≠ p)

/-- Ensure a path is present exactly once. -/
def addP (files : List String) (p : String) : List String :=
  p :: removeP files p

/-- Is `p` strictly inside directory `d`? -/
def isUnder (d p : String) : Bool :=
  startsWithL p (d ++ "/")

/-- Is the directory `d` empty in `files`? -/
def tempEmptyB (files : List String) (d : String) : Bool :=
  files.all fun p => !(isUnder d p)

/-- Files plus directories of the scanned directory's subtree. -/
structure ClobberState where
  files : List String
  dirs : List String
deriving DecidableEq

/-- The staging path used in clobber mode
(`compress.cjs:541-546`): `dir/temp_output/{basename-minus-mov}.mp4`. -/
def clobberOutputPath (dir file : String) : String :=
  dir ++ "/temp_output/" ++ basenameDropMov file ++ ".mp4"

/-- One clobber-mode iteration of `processDirectory`'s loop
(`compress.cjs:538-583`) for the file `file` in directory `dir`:
`ensureDir` the staging directory; run the compression (`ok` tells
whether `compressVideo` succeeded; on failure `partialOut` tells
whether a partial staged file was left behind); on success remove the
original, move the staged output to `file.replace` of the `.mov`
suffix, and `rmdir` the staging directory when it is empty.  A failure
is caught and leaves the original file alone. -/
def clobberStep (dir file : String) (ok partialOut : Bool)
    (st : ClobberState) : ClobberState :=
  let tempDir := dir ++ "/temp_output"
  let st1 := { st with dirs := addP st.dirs tempDir }
  let outputPath := clobberOutputPath dir file
  if ok then
    let st2 := { st1 with files := addP st1.files outputPath }
    let st3 := { st2 with files := removeP st2.files file }
    let finalPath := replaceMovSuffix file
    let st4 := { st3 with
      files := addP (removeP st3.files outputPath) finalPath }
    if tempEmptyB st4.files tempDir then
      { st4 with dirs := removeP st4.dirs tempDir }
    else st4
  else
    if partialOut then { st1 with files := addP st1.files outputPath }
    else st1

/-- The extension filter of the compression batch
(`compress.cjs:492-494`): keep files whose lowercased name ends in
`".mov"`. -/
def movFilter (names : List String) : List String :=
  names.filter fun f => endsWithL (strLower f) ".mov"

/-! ## Lemmas about the slug sanitizer -/

/-- No two adjacent hyphens. -/
def NoHH (l : List Char) : Prop :=
  List.Chain' (fun a b => ¬(a = '-' ∧ b = '-')) l

lemma toLower_eq_of_slug {c : Char} (h : isSlugChar c = true) :
    c.toLower = c := by
  simp only [isSlugChar, Bool.or_eq_true, Bool.and_eq_true,
    decide_eq_true_eq] at h
  simp only [Char.toLower]
  rw [if_neg (by omega)]

lemma hyphenate_allSlug (l : List Char) :
    ∀ c ∈ hyphenate l, isSlugChar c = true := by
  intro c hc
  simp only [hyphenate, List.mem_map] at hc
  obtain ⟨a, -, rfl⟩ := hc
  by_cases h : isSlugChar a = true
  · simp [h]
  · simp only [h]
    simp only [Bool.false_eq_true, if_false]
    decide

lemma map_toLower_id {l : List Char}
    (h : ∀ c ∈ l, isSlugChar c = true) : l.map Char.toLower = l := by
  induction l with
  | nil => rfl
  | cons c rest ih =>
    simp only [List.map_cons]
    rw [toLower_eq_of_slug (h c (List.mem_cons_self c rest)),
      ih fun d hd => h d (List.mem_cons_of_mem c hd)]

lemma hyphenate_id {l : List Char}
    (h : ∀ c ∈ l, isSlugChar c = true) : hyphenate l = l := by
  induction l with
  | nil => rfl
  | cons c rest ih =>
    simp only [hyphenate, List.map_cons]
    rw [if_pos (h c (List.mem_cons_self c rest))]
    have := ih fun d hd => h d (List.mem_cons_of_mem c hd)
    simpa [hyphenate] using this

lemma mem_collapseChar {t c : Char} :
    ∀ {l : List Char}, c ∈ collapseChar t l → c ∈ l := by
  intro l
  induction l with
  | nil => simp [collapseChar]
  | cons a rest ih =>
    simp only [collapseChar]
    by_cases had : a = t ∧ (collapseChar t rest).head? = some t
    · rw [if_pos had]
      intro hc
      exact List.mem_cons_of_mem a (ih hc)
    · rw [if_neg had]
      intro hc
      rcases List.mem_cons.mp hc with h | h
      · simp [h]
      · exact List.mem_cons_of_mem a (ih h)

lemma noHH_collapseChar (l : List Char) : NoHH (collapseChar '-' l) := by
  induction l with
  | nil => exact List.chain'_nil
  | cons a rest ih =>
    simp only [collapseChar]
    by_cases had : a = '-' ∧ (collapseChar '-' rest).head? = some '-'
    · rw [if_pos had]; exact ih
    · rw [if_neg had]
      refine List.chain'_cons'.mpr ⟨?_, ih⟩
      intro y hy hay
      obtain ⟨ha, hyh⟩ := hay
      exact had ⟨ha, by rwa [hyh] at hy⟩

lemma collapseChar_id {l : List Char} (h : NoHH l) :
    collapseChar '-' l = l := by
  induction l with
  | nil => rfl
  | cons a rest ih =>
    have htail : NoHH rest := h.tail
    simp only [collapseChar, ih htail]
    rw [if_neg]
    rintro ⟨ha, hh⟩
    cases rest with
    | nil => simp at hh
    | cons d ds =>
      simp only [List.head?_cons, Option.some.injEq] at hh
      exact (List.chain'_cons.mp h).1 ⟨ha, hh⟩

lemma dropLeadH_subset {c : Char} {l : List Char}
    (hc : c ∈ dropLeadH l) : c ∈ l := by
  cases l with
  | nil => simp [dropLeadH] at hc
  | cons a rest =>
    simp only [dropLeadH] at hc
    by_cases ha : a = '-'
    · rw [if_pos ha] at hc
      exact List.mem_cons_of_mem a hc
    · rwa [if_neg ha] at hc

lemma dropLeadH_noHH {l : List Char} (h : NoHH l) :
    NoHH (dropLeadH l) := by
  cases l with
  | nil => exact List.chain'_nil
  | cons a rest =>
    simp only [dropLeadH]
    by_cases ha : a = '-'
    · rw [if_pos ha]; exact h.tail
    · rwa [if_neg ha]

lemma dropLeadH_headOk {l : List Char} (h : NoHH l) :
    (dropLeadH l).head? ≠ some '-' := by
  cases l with
  | nil => simp [dropLeadH]
  | cons a rest =>
    simp only [dropLeadH]
    by_cases ha : a = '-'
    · rw [if_pos ha]
      cases rest with
      | nil => simp
      | cons d ds =>
        have hrel := (List.chain'_cons.mp h).1
        simp only [List.head?_cons, ne_eq, Option.some.injEq]
        intro hd
        exact hrel ⟨ha, hd⟩
    · rw [if_neg ha]
      simpa using ha

lemma dropLeadH_id {l : List Char} (h : l.head? ≠ some '-') :
    dropLeadH l = l := by
  cases l with
  | nil => rfl
  | cons a rest =>
    simp only [dropLeadH]
    rw [if_neg]
    intro ha
    exact h (by simp [ha])

lemma dropTrailH_shape (d : Char) (rest : List Char) :
    dropTrailH (d :: rest) = [] ∨
      ∃ t, dropTrailH (d :: rest) = d :: t := by
  cases rest with
  | nil =>
    by_cases hd : d = '-'
    · left; simp [dropTrailH, hd]
    · right; exact ⟨[], by simp [dropTrailH, hd]⟩
  | cons e es => right; exact ⟨dropTrailH (e :: es), rfl⟩

lemma dropTrailH_subset {c : Char} :
    ∀ {l : List Char}, c ∈ dropTrailH l → c ∈ l := by
  intro l
  induction l with
  | nil => simp [dropTrailH]
  | cons a rest ih =>
    cases rest with
    | nil =>
      simp only [dropTrailH]
      by_cases ha : a = '-'
      · rw [if_pos ha]; simp
      · rw [if_neg ha]; simp
    | cons d ds =>
      simp only [dropTrailH, List.mem_cons]
      rintro (h | h)
      · exact Or.inl h
      · exact Or.inr (List.mem_cons.mp (ih h))

lemma dropTrailH_noHH : ∀ {l : List Char}, NoHH l → NoHH (dropTrailH l) := by
  intro l
  induction l with
  | nil => intro _; exact List.chain'_nil
  | cons a rest ih =>
    intro h
    cases rest with
    | nil =>
      simp only [dropTrailH]
      by_cases ha : a = '-'
      · rw [if_pos ha]; exact List.chain'_nil
      · rw [if_neg ha]; exact List.chain'_singleton a
    | cons d ds =>
      simp only [dropTrailH]
      have htail : NoHH (dropTrailH (d :: ds)) := ih h.tail
      refine List.chain'_cons'.mpr ⟨?_, htail⟩
      intro y hy
      rcases dropTrailH_shape d ds with hnil | ⟨t, ht⟩
      · rw [hnil] at hy; simp at hy
      · rw [ht] at hy
        simp only [List.head?_cons, Option.mem_def, Option.some.injEq] at hy
        subst hy
        exact (List.chain'_cons.mp h).1

lemma dropTrailH_headOk {l : List Char} (h : l.head? ≠ some '-') :
    (dropTrailH l).head? ≠ some '-' := by
  cases l with
  | nil => simp [dropTrailH]
  | cons d rest =>
    rcases dropTrailH_shape d rest with hnil | ⟨t, ht⟩
    · rw [hnil]; simp
    · rw [ht]
      simpa using h

lemma dropTrailH_lastOk : ∀ {l : List Char}, NoHH l →
    (dropTrailH l).getLast? ≠ some '-' := by
  intro l
  induction l with
  | nil => intro _; simp [dropTrailH]
  | cons a rest ih =>
    intro h
    cases rest with
    | nil =>
      simp only [dropTrailH]
      by_cases ha : a = '-'
      · rw [if_pos ha]; simp
      · rw [if_neg ha]; simpa using ha
    | cons d ds =>
      simp only [dropTrailH]
      rcases dropTrailH_shape d ds with hnil | ⟨t, ht⟩
      · rw [hnil]
        simp only [List.getLast?_singleton, ne_eq, Option.some.injEq]
        intro ha
        -- `dropTrailH (d :: ds) = []` forces `ds = []` and `d = '-'`;
        -- adjacency with `a = '-'` would contradict `NoHH`.
        cases ds with
        | nil =>
          simp only [dropTrailH] at hnil
          by_cases hd : d = '-'
          · exact (List.chain'_cons.mp h).1 ⟨ha, hd⟩
          · rw [if_neg hd] at hnil; cases hnil
        | cons e es => cases hnil
      · rw [ht, List.getLast?_cons_cons]
        rw [ht] at ih
        exact ih h.tail

lemma dropTrailH_id : ∀ {l : List Char}, l.getLast? ≠ some '-' →
    dropTrailH l = l := by
  intro l
  induction l with
  | nil => intro _; rfl
  | cons a rest ih =>
    intro h
    cases rest with
    | nil =>
      simp only [dropTrailH]
      rw [if_neg]
      intro ha
      rw [ha] at h
      simp at h
    | cons d ds =>
      simp only [dropTrailH]
      rw [ih (by rwa [List.getLast?_cons_cons] at h)]

lemma sanitizeL_allSlug (l : List Char) :
    ∀ c ∈ sanitizeL l, isSlugChar c = true := by
  intro c hc
  simp only [sanitizeL] at hc
  exact hyphenate_allSlug _ _
    (mem_collapseChar (dropLeadH_subset (dropTrailH_subset hc)))

lemma sanitizeL_noHH (l : List Char) : NoHH (sanitizeL l) :=
  dropTrailH_noHH (dropLeadH_noHH (noHH_collapseChar _))

lemma sanitizeL_headOk (l : List Char) :
    (sanitizeL l).head? ≠ some '-' :=
  dropTrailH_headOk (dropLeadH_headOk (noHH_collapseChar _))

lemma sanitizeL_lastOk (l : List Char) :
    (sanitizeL l).getLast? ≠ some '-' :=
  dropTrailH_lastOk (dropLeadH_noHH (noHH_collapseChar _))

lemma sanitizeL_idem (l : List Char) :
    sanitizeL (sanitizeL l) = sanitizeL l := by
  have hslug := sanitizeL_allSlug l
  conv_lhs => rw [sanitizeL]
  rw [map_toLower_id hslug, hyphenate_id hslug,
    collapseChar_id (sanitizeL_noHH l),
    dropLeadH_id (sanitizeL_headOk l),
    dropTrailH_id (sanitizeL_lastOk l)]

/-! ## Step lemmas for `compressVideo` -/

lemma cv_drive_err (att : Nat → AttemptSpec) (rc : Nat) (m : String)
    (hd : (att rc).drive = .err m) :
    compressVideo att rc =
      { success := false, attempts := 1, waits := 0, error := some m } := by
  unfold compressVideo
  simp only [hd]

lemma cv_success (att : Nat → AttemptSpec) (rc : Nat)
    (hd : (att rc).drive = .ok) (ha : (att rc).access = .ok)
    (hm : (att rc).meta = .ok) (he : (att rc).encode = .ok) :
    compressVideo att rc =
      { success := true, attempts := 1, waits := 0, error := none } := by
  unfold compressVideo
  simp only [hd, ha, hm, he]

lemma cv_access_retry (att : Nat → AttemptSpec) (rc : Nat) (m : String)
    (hd : (att rc).drive = .ok) (ha : (att rc).access = .err m)
    (hlt : rc < MAX_RETRIES) :
    compressVideo att rc = (compressVideo att (rc + 1)).afterRetry := by
  conv_lhs => unfold compressVideo
  simp only [hd, ha]
  rw [dif_neg (by omega)]

lemma cv_access_final (att : Nat → AttemptSpec) (rc : Nat) (m : String)
    (hd : (att rc).drive = .ok) (ha : (att rc).access = .err m)
    (hge : MAX_RETRIES ≤ rc) :
    compressVideo att rc =
      { success := false, attempts := 1, waits := 0,
        error := some ("Failed to access input file after 3 attempts: "
          ++ m) } := by
  unfold compressVideo
  simp only [hd, ha]
  rw [dif_pos (by omega)]

lemma cv_meta_retry (att : Nat → AttemptSpec) (rc : Nat) (m : String)
    (hd : (att rc).drive = .ok) (ha : (att rc).access = .ok)
    (hm : (att rc).meta = .err m) (hlt : rc < MAX_RETRIES) :
    compressVideo att rc = (compressVideo att (rc + 1)).afterRetry := by
  conv_lhs => unfold compressVideo
  simp only [hd, ha, hm]
  rw [dif_neg (by omega)]

lemma cv_meta_final (att : Nat → AttemptSpec) (rc : Nat) (m : String)
    (hd : (att rc).drive = .ok) (ha : (att rc).access = .ok)
    (hm : (att rc).meta = .err m) (hge : MAX_RETRIES ≤ rc) :
    compressVideo att rc =
      { success := false, attempts := 1, waits := 0,
        error := some ("Failed to get video metadata after 3 attempts: "
          ++ m) } := by
  unfold compressVideo
  simp only [hd, ha, hm]
  rw [dif_pos (by omega)]

lemma cv_encode_retry (att : Nat → AttemptSpec) (rc : Nat) (m : String)
    (hd : (att rc).drive = .ok) (ha : (att rc).access = .ok)
    (hm : (att rc).meta = .ok) (he : (att rc).encode = .err m)
    (hlt : rc < MAX_RETRIES) (htr : isTransient m = true) :
    compressVideo att rc = (compressVideo att (rc + 1)).afterRetry := by
  conv_lhs => unfold compressVideo
  simp only [hd, ha, hm, he]
  rw [dif_pos ⟨hlt, htr⟩]

lemma cv_encode_fail (att : Nat → AttemptSpec) (rc : Nat) (m : String)
    (hd : (att rc).drive = .ok) (ha : (att rc).access = .ok)
    (hm : (att rc).meta = .ok) (he : (att rc).encode = .err m)
    (hcond : ¬(rc < MAX_RETRIES ∧ isTransient m = true)) :
    compressVideo att rc =
      { success := false, attempts := 1, waits := 0, error := some m } := by
  unfold compressVideo
  simp only [hd, ha, hm, he]
  rw [dif_neg hcond]

/-- Once `retryCount` has reached `MAX_RETRIES`, whatever happens,
only one more attempt runs. -/
lemma compressVideo_attempts_base (att : Nat → AttemptSpec) (rc : Nat)
    (hge : MAX_RETRIES ≤ rc) : (compressVideo att rc).attempts = 1 := by
  cases hd : (att rc).drive with
  | err m => rw [cv_drive_err att rc m hd]
  | ok =>
    cases ha : (att rc).access with
    | err m => rw [cv_access_final att rc m hd ha hge]
    | ok =>
      cases hm : (att rc).meta with
      | err m => rw [cv_meta_final att rc m hd ha hm hge]
      | ok =>
        cases he : (att rc).encode with
        | err m =>
          rw [cv_encode_fail att rc m hd ha hm he]
          intro hcond
          omega
        | ok => rw [cv_success att rc hd ha hm he]

/-- The attempt count of a `compressVideo` call tree is bounded by the
retries left plus one. -/
lemma compressVideo_attempts_le (att : Nat → AttemptSpec) :
    ∀ k rc, MAX_RETRIES - rc ≤ k →
      (compressVideo att rc).attempts ≤ k + 1 := by
  intro k
  induction k with
  | zero =>
    intro rc hrc
    rw [compressVideo_attempts_base att rc (by omega)]
  | succ k ih =>
    intro rc hrc
    by_cases hge : MAX_RETRIES ≤ rc
    · rw [compressVideo_attempts_base att rc hge]
      omega
    · have hlt : rc < MAX_RETRIES := by omega
      have hnext : MAX_RETRIES - (rc + 1) ≤ k := by omega
      cases hd : (att rc).drive with
      | err m => rw [cv_drive_err att rc m hd]; simp
      | ok =>
        cases ha : (att rc).access with
        | err m =>
          rw [cv_access_retry att rc m hd ha hlt]
          have := ih (rc + 1) hnext
          simp only [CompressResult.afterRetry]
          omega
        | ok =>
          cases hm : (att rc).meta with
          | err m =>
            rw [cv_meta_retry att rc m hd ha hm hlt]
            have := ih (rc + 1) hnext
            simp only [CompressResult.afterRetry]
            omega
          | ok =>
            cases he : (att rc).encode with
            | err m =>
              by_cases htr : isTransient m = true
              · rw [cv_encode_retry att rc m hd ha hm he hlt htr]
                have := ih (rc + 1) hnext
                simp only [CompressResult.afterRetry]
                omega
              · rw [cv_encode_fail att rc m hd ha hm he
                  (by intro hcond; exact htr hcond.2)]
                simp
            | ok => rw [cv_success att rc hd ha hm he]; simp

/-! ## Lemmas about suffixes and the path model -/

lemma isPrefixL_iff : ∀ a b : List Char, isPrefixL a b = true ↔ a <+: b := by
  intro a
  induction a with
  | nil => intro b; simp [isPrefixL]
  | cons x xs ih =>
    intro b
    cases b with
    | nil => simp [isPrefixL]
    | cons y ys =>
      simp only [isPrefixL, Bool.and_eq_true, beq_iff_eq,
        List.cons_prefix_cons]
      rw [ih ys]

lemma endsWithL_iff (s t : String) :
    endsWithL s t = true ↔ t.toList <:+ s.toList := by
  rw [endsWithL, isPrefixL_iff, List.reverse_prefix]

lemma toList_append (a b : String) :
    (a ++ b).toList = a.toList ++ b.toList := rfl

lemma endsWithL_append (x suf : String) :
    endsWithL (x ++ suf) suf = true := by
  rw [endsWithL_iff, toList_append]
  exact ⟨x.toList, rfl⟩

/-- A string cannot end in both `".mov"` and `".mp4"`. -/
lemma not_mov_and_mp4 {f : String} (h1 : endsWithL f ".mov" = true)
    (h2 : endsWithL f ".mp4" = true) : False := by
  rw [endsWithL_iff] at h1 h2
  obtain ⟨u, hu⟩ := h1
  obtain ⟨v, hv⟩ := h2
  rw [← hv] at hu
  have hlen : u.length = v.length := by
    have := congrArg List.length hu
    simp only [List.length_append] at this
    have h4 : (".mp4" : String).toList.length = 4 := by decide
    have h5 : (".mov" : String).toList.length = 4 := by decide
    omega
  obtain ⟨-, h⟩ := List.append_inj hu hlen
  exact absurd h (by decide)

lemma mov_suffix_decomp {f : String} (h : endsWithL f ".mov" = true) :
    f.toList = f.toList.take (f.toList.length - 4) ++ ".mov".toList := by
  rw [endsWithL_iff] at h
  obtain ⟨u, hu⟩ := h
  have h4 : (".mov" : String).toList.length = 4 := by decide
  rw [← hu]
  congr 1
  have hlen : (u ++ (".mov" : String).toList).length - 4 = u.length := by
    simp only [List.length_append]
    omega
  rw [hlen, List.take_left]

/-- Replacing the `.mov` suffix genuinely changes the string. -/
lemma replaceMov_ne {f : String} (h : endsWithL f ".mov" = true) :
    strDropRight f 4 ++ ".mp4" ≠ f := by
  intro hEq
  have h1 := congrArg String.toList hEq
  rw [toList_append] at h1
  have hdrop : (strDropRight f 4).toList =
      f.toList.take (f.toList.length - 4) := rfl
  rw [hdrop] at h1
  conv_rhs at h1 => rw [mov_suffix_decomp h]
  have := List.append_cancel_left h1
  exact absurd this (by decide)

lemma map_toLower_mp4 :
    (".mp4" : String).toList.map Char.toLower = ".mp4".toList := by decide

/-- Lowercasing preserves a `".mp4"` suffix. -/
lemma lower_endsWith_mp4 {x : String} (h : endsWithL x ".mp4" = true) :
    endsWithL (strLower x) ".mp4" = true := by
  rw [endsWithL_iff] at h ⊢
  obtain ⟨u, hu⟩ := h
  refine ⟨u.map Char.toLower, ?_⟩
  have : (strLower x).toList = x.toList.map Char.toLower := rfl
  rw [this, ← hu, List.map_append, map_toLower_mp4]

lemma mem_removeP {p q : String} {files : List String} :
    p ∈ removeP files q ↔ p ∈ files ∧ p ≠ q := by
  simp [removeP]

lemma mem_addP {p q : String} {files : List String} :
    p ∈ addP files q ↔ p = q ∨ (p ∈ files ∧ p ≠ q) := by
  simp [addP, removeP]

/-! ## Lemmas about `processVideo` -/

/-- A run that fails (or skips) before the commit step leaves the
state untouched. -/
lemma processVideo_noCommit (force : Bool) (o : PvOracles) (st : PvState)
    (hrc : reachesCommit force o st = false) :
    (processVideo force o st).1 = st := by
  cases hskip : (!force && hasMetadata st) with
  | true => simp [processVideo, hskip]
  | false =>
    cases hra : o.rawAnalysis.bind (analyzeInitialFrame o.probeDuration) with
    | error e => simp [processVideo, hskip, hra]
    | ok a =>
      cases htr : (if a.needsTranscript then o.transcribeResult
          else Except.ok "") with
      | error e => simp [processVideo, hskip, hra, htr]
      | ok t =>
        cases hfr : (if a.additionalKeyframes > 0 then o.frames
            else Except.ok ([] : List String)) with
        | error e => simp [processVideo, hskip, hra, htr, hfr]
        | ok ds =>
          cases him : o.rawImportance.bind determineImportance with
          | error e => simp [processVideo, hskip, hra, htr, hfr, him]
          | ok imp =>
            rw [reachesCommit] at hrc
            simp [hskip, hra, htr, hfr, him] at hrc

/-- A run that reaches the commit step appends exactly one record to
both stores before the rename is attempted; the shape of the outcome
then depends only on the rename and comment-write oracles. -/
lemma processVideo_commit (force : Bool) (o : PvOracles) (st : PvState)
    (hrc : reachesCommit force o st = true) :
    ∃ (a : AnalysisResult) (t : String) (rec : SummaryRecord),
      o.rawAnalysis.bind (analyzeInitialFrame o.probeDuration) =
        .ok a ∧
      (if a.needsTranscript then o.transcribeResult else .ok "") =
        .ok t ∧
      rec.transcript = (if t = "" then none else some t) ∧
      (o.renameOk = false → processVideo force o st =
        ({ st with txtStore := st.txtStore ++ [rec],
                   jsonStore := st.jsonStore ++ [rec] },
         some "rename failed")) ∧
      (o.renameOk = true → ∃ np c, processVideo force o st =
        ({ txtStore := st.txtStore ++ [rec],
           jsonStore := st.jsonStore ++ [rec],
           filePath := np, comment := c }, none) ∧
        np = rec.path ∧ (o.commentOk = false → c = st.comment)) := by
  cases hskip : (!force && hasMetadata st) with
  | true => rw [reachesCommit] at hrc; simp [hskip] at hrc
  | false =>
    cases hra : o.rawAnalysis.bind (analyzeInitialFrame o.probeDuration) with
    | error e => rw [reachesCommit] at hrc; simp [hskip, hra] at hrc
    | ok a =>
      cases htr : (if a.needsTranscript then o.transcribeResult
          else Except.ok "") with
      | error e => rw [reachesCommit] at hrc; simp [hskip, hra, htr] at hrc
      | ok t =>
        cases hfr : (if a.additionalKeyframes > 0 then o.frames
            else Except.ok ([] : List String)) with
        | error e =>
          rw [reachesCommit] at hrc; simp [hskip, hra, htr, hfr] at hrc
        | ok ds =>
          cases him : o.rawImportance.bind determineImportance with
          | error e =>
            rw [reachesCommit] at hrc
            simp [hskip, hra, htr, hfr, him] at hrc
          | ok imp =>
            refine ⟨a, t, ?_⟩
            refine ⟨{ filename := generateShortName o.nameReply
                        imp.importance o.guid ++ extname st.filePath,
                      original_name := basenameStr st.filePath,
                      rating := imp.importance,
                      reason := imp.reason,
                      duration_seconds := a.duration,
                      description := imp.fullDescription,
                      additional_descriptions := ds,
                      transcript := if t = "" then none else some t,
                      processed_at := o.timestamp,
                      path := dirname st.filePath ++ "/"
                        ++ (generateShortName o.nameReply imp.importance
                            o.guid ++ extname st.filePath) },
                    rfl, htr, rfl, ?_, ?_⟩
            · intro hro
              simp [processVideo, hskip, hra, htr, hfr, him, hro]
            · intro hro
              refine ⟨_, if o.commentOk then
                    cleanComment (jsValToString imp.fullDescription
                      ++ "\n\nImportance: "
                      ++ jsNumToString imp.importance
                      ++ "/9 - " ++ jsValToString imp.reason)
                  else st.comment, ?_, rfl, ?_⟩
              · cases hco : o.commentOk with
                | true => simp [processVideo, hskip, hra, htr, hfr, him,
                    hro, hco]
                | false => simp [processVideo, hskip, hra, htr, hfr, him,
                    hro, hco]
              · intro hco
                simp [hco]

/-- Whatever the rename and comment outcomes, a committing run appends
one record to the JSON store. -/
lemma processVideo_commit_json (force : Bool) (o : PvOracles)
    (st : PvState) (hrc : reachesCommit force o st = true) :
    ∃ rec, (processVideo force o st).1.jsonStore =
      st.jsonStore ++ [rec] := by
  obtain ⟨a, t, rec, -, -, -, hfalse, htrue⟩ :=
    processVideo_commit force o st hrc
  refine ⟨rec, ?_⟩
  cases hro : o.renameOk with
  | false => rw [hfalse hro]
  | true =>
    obtain ⟨np, c, heq, -, -⟩ := htrue hro
    rw [heq]

/-! ## Concrete pipeline scenarios used by witnesses and
counterexamples -/

/-- A raw probe reply: truthy description, `needsTranscript: false`,
no extra keyframes. -/
def rawA0 : RawAnalysis :=
  ⟨some (JVal.vstr "a scene"), some (JVal.vbool false),
   some (JVal.vnum 0)⟩

/-- A raw importance reply: rating 3 with truthy strings. -/
def rawI0 : RawImportance :=
  ⟨some (JVal.vnum 3), some (JVal.vstr "family"),
   some (JVal.vstr "kids at the beach")⟩

/-- A fully successful oracle set for a 6-second clip (the duration
forces transcription). -/
def oBase : PvOracles :=
  { probeDuration := 6, rawAnalysis := .ok rawA0,
    transcribeResult := .ok "hello there", frames := .ok [],
    rawImportance := .ok rawI0, nameReply := "Beach Walk",
    guid := "ab12", timestamp := "2025-03-25", renameOk := true,
    commentOk := true }

/-- An unannotated asset with empty stores. -/
def st0 : PvState := ⟨[], [], "d/a.mov", ""⟩

/-! ## Claim theorems -/

/-- C1: for every asset whose probed duration is greater than 5
seconds, any `AnalysisResult` successfully returned by
`analyzeInitialFrame` has `needsTranscript = true`, regardless of the
`needsTranscript` value in the raw model response (the override runs
before validation, so even an absent or non-boolean raw value is
replaced). -/
theorem C1_duration_forces_transcript (d : ℚ) (raw : RawAnalysis)
    (r : AnalysisResult) (hd : d > 5)
    (hok : analyzeInitialFrame d raw = .ok r) :
    r.needsTranscript = true := by
  obtain ⟨de, nt, kf⟩ := raw
  simp only [analyzeInitialFrame, if_pos hd] at hok
  split at hok
  next =>
    split at hok
    · cases hok
      simp_all
    · cases hok
  next => cases hok

/-- C1 witness: a 6-second video whose raw reply said
`needsTranscript: false` still comes back with `needsTranscript =
true`. -/
theorem C1_witness :
    (6 : ℚ) > 5 ∧
    (analyzeInitialFrame 6
        ⟨some (JVal.vstr "a scene"), some (JVal.vbool false),
         some (JVal.vnum 2)⟩ =
      .ok ⟨JVal.vstr "a scene", true, 2, 6⟩) ∧
    (⟨JVal.vstr "a scene", true, 2, 6⟩ : AnalysisResult).needsTranscript
      = true := by
  refine ⟨by norm_num, rfl, ?_⟩
  exact C1_duration_forces_transcript 6
    ⟨some (JVal.vstr "a scene"), some (JVal.vbool false),
     some (JVal.vnum 2)⟩
    ⟨JVal.vstr "a scene", true, 2, 6⟩ (by norm_num) rfl

/-- C2 counterexample: `determineImportance` checks only
`typeof importance === "number"` together with the range, so the
in-range non-integer 5/2 is accepted and returned unchanged — the
claim's "importance value that is an integer in [1,9]" is false on the
code. -/
theorem C2_counterexample :
    determineImportance
        ⟨some (JVal.vnum (5/2)), some (JVal.vstr "family"),
         some (JVal.vstr "kids playing")⟩ =
      .ok ⟨5/2, JVal.vstr "family", JVal.vstr "kids playing"⟩ ∧
    ¬ ∃ n : ℤ, ((5 : ℚ)/2) = (n : ℚ) := by
  constructor
  · simp only [determineImportance, Option.getD_some]
    rw [if_pos]
    norm_num [JVal.truthy]
    exact ⟨by decide, by decide⟩
  · rintro ⟨n, hn⟩
    have hden := congrArg Rat.den hn
    rw [Rat.den_intCast] at hden
    norm_num at hden

/-- C2 amended: every `ImportanceResult` returned by
`determineImportance` has `importance` a number in [1,9] that is the
raw response's value unchanged (never clamped or substituted), and a
response whose `importance` is absent or whose numeric value lies
outside [1,9] always raises — but integrality is not checked, so
in-range fractional values are accepted. -/
theorem C2_amended_importance_range (raw : RawImportance) :
    (∀ r, determineImportance raw = .ok r →
      1 ≤ r.importance ∧ r.importance ≤ 9 ∧
        raw.importance = some (JVal.vnum r.importance)) ∧
    ((raw.importance = none ∨
        ∃ q, raw.importance = some (JVal.vnum q) ∧ (q < 1 ∨ 9 < q)) →
      ∃ e, determineImportance raw = .error e) := by
  obtain ⟨io, ro, fo⟩ := raw
  constructor
  · intro r hok
    cases io with
    | none => simp [determineImportance] at hok
    | some v =>
      cases v with
      | vnum q =>
        simp only [determineImportance, Option.getD_some] at hok
        split at hok
        · rename_i hcond
          simp only [Bool.and_eq_true, Bool.not_eq_eq_eq_not,
            Bool.not_true, decide_eq_false_iff_not, not_lt] at hcond
          cases hok
          exact ⟨hcond.1.2, hcond.2, rfl⟩
        · cases hok
      | vnull => simp [determineImportance] at hok
      | vbool b => simp [determineImportance] at hok
      | vstr s => simp [determineImportance] at hok
  · rintro (hno | ⟨q, hq, hrange⟩)
    · subst hno
      exact ⟨"Failed to get valid analysis from OpenAI", rfl⟩
    · subst hq
      refine ⟨"Failed to get valid analysis from OpenAI", ?_⟩
      simp only [determineImportance, Option.getD_some]
      rw [if_neg]
      intro hcond
      simp only [Bool.and_eq_true, Bool.not_eq_eq_eq_not,
        Bool.not_true, decide_eq_false_iff_not, not_lt] at hcond
      rcases hrange with h | h
      · exact absurd hcond.1.2 (not_le.mpr h)
      · exact absurd hcond.2 (not_le.mpr h)

/-- C2 witness: a valid response with importance 3 is returned
unchanged, and a response with importance 10 raises. -/
theorem C2_witness :
    ((1 : ℚ) ≤ 3 ∧ (3 : ℚ) ≤ 9 ∧
      (⟨some (JVal.vnum 3), some (JVal.vstr "r"),
        some (JVal.vstr "d")⟩ : RawImportance).importance =
        some (JVal.vnum 3)) ∧
    ∃ e, determineImportance
        ⟨some (JVal.vnum 10), some (JVal.vstr "r"),
         some (JVal.vstr "d")⟩ = .error e := by
  constructor
  · exact (C2_amended_importance_range
      ⟨some (JVal.vnum 3), some (JVal.vstr "r"),
       some (JVal.vstr "d")⟩).1
      ⟨3, JVal.vstr "r", JVal.vstr "d"⟩ rfl
  · exact (C2_amended_importance_range
      ⟨some (JVal.vnum 10), some (JVal.vstr "r"),
       some (JVal.vstr "d")⟩).2
      (Or.inr ⟨10, rfl, Or.inr (by norm_num)⟩)

/-- C3 counterexample: a run whose rename fails has already appended
the record to both stores — they are not "unchanged from before the
commit step began". -/
theorem C3_counterexample :
    (processVideo false { oBase with renameOk := false } st0).2 =
      some "rename failed" ∧
    (processVideo false { oBase with renameOk := false }
        st0).1.jsonStore.length = 1 ∧
    (processVideo false { oBase with renameOk := false }
        st0).1.txtStore.length = 1 ∧
    st0.jsonStore.length = 0 ∧ st0.txtStore.length = 0 :=
  ⟨rfl, rfl, rfl, rfl, rfl⟩

/-- C3 amended: the commit step is record-then-rename.  When the
rename fails the asset's path is unchanged and the error propagates,
but the `SummaryRecord` has already been appended to both the JSON and
text stores and is not rolled back; only a run that fails before the
commit step leaves the stores unchanged. -/
theorem C3_amended_record_then_rename (force : Bool) (o : PvOracles)
    (st : PvState) (h : o.renameOk = false) :
    (processVideo force o st).1.filePath = st.filePath ∧
    ((processVideo force o st).2 = none →
      (processVideo force o st).1 = st) ∧
    (reachesCommit force o st = true →
      (processVideo force o st).2 = some "rename failed" ∧
      ∃ rec, (processVideo force o st).1.txtStore =
          st.txtStore ++ [rec] ∧
        (processVideo force o st).1.jsonStore =
          st.jsonStore ++ [rec]) := by
  by_cases hrc : reachesCommit force o st = true
  · obtain ⟨a, t, rec, -, -, -, hfalse, -⟩ :=
      processVideo_commit force o st hrc
    have heq := hfalse h
    refine ⟨?_, ?_, fun _ => ⟨?_, rec, ?_, ?_⟩⟩
    · rw [heq]
    · rw [heq]; intro hco; cases hco
    · rw [heq]
    · rw [heq]
    · rw [heq]
  · have hrc' : reachesCommit force o st = false := by
      cases hb : reachesCommit force o st
      · rfl
      · exact absurd hb hrc
    have hst := processVideo_noCommit force o st hrc'
    exact ⟨by rw [hst], fun _ => hst, fun habs => absurd habs hrc⟩

/-- C3 witness: the amended theorem applied to the concrete
rename-failing scenario. -/
theorem C3_witness :
    ({ oBase with renameOk := false } : PvOracles).renameOk = false ∧
    ((processVideo false { oBase with renameOk := false }
        st0).1.filePath = st0.filePath ∧
     ((processVideo false { oBase with renameOk := false } st0).2 =
        none →
       (processVideo false { oBase with renameOk := false } st0).1 =
         st0) ∧
     (reachesCommit false { oBase with renameOk := false } st0 = true →
       (processVideo false { oBase with renameOk := false } st0).2 =
         some "rename failed" ∧
       ∃ rec, (processVideo false { oBase with renameOk := false }
           st0).1.txtStore = st0.txtStore ++ [rec] ∧
         (processVideo false { oBase with renameOk := false }
           st0).1.jsonStore = st0.jsonStore ++ [rec])) :=
  ⟨rfl, C3_amended_record_then_rename false
    { oBase with renameOk := false } st0 rfl⟩

/-- C4 counterexample: when transcription is performed and the service
returns an empty transcript, the persisted record stores `null`
(`transcript || null`), not the empty string — exactly the same value
as when transcription is skipped (second run: 4-second clip, raw
`needsTranscript: false`). -/
theorem C4_counterexample :
    (analyzeInitialFrame 6 rawA0 |>.toOption.map
      (fun a => a.needsTranscript)) = some true ∧
    ({ oBase with transcribeResult := .ok "" } :
      PvOracles).transcribeResult = .ok "" ∧
    ((processVideo false { oBase with transcribeResult := .ok "" }
        st0).1.jsonStore.map fun r => r.transcript) = [none] ∧
    ((processVideo false { oBase with probeDuration := 4 }
        st0).1.jsonStore.map fun r => r.transcript) = [none] :=
  ⟨rfl, rfl, rfl, rfl⟩

/-- C4 amended: the persisted `transcript` field is never the empty
string — whenever the effective transcript text is empty, whether
because transcription was skipped or because the service returned an
empty transcript, the record stores `null` (`Option.none`), so the two
cases are indistinguishable in the stores; only a non-empty transcript
is stored as text. -/
theorem C4_amended_empty_transcript_null (force : Bool) (o : PvOracles)
    (st : PvState) (rec : SummaryRecord)
    (h : (processVideo force o st).1.jsonStore = st.jsonStore ++ [rec]) :
    rec.transcript ≠ some "" ∧
    (o.transcribeResult = .ok "" → rec.transcript = none) := by
  by_cases hrc : reachesCommit force o st = true
  · obtain ⟨a, t, rec', hra, htr, htrr, hfalse, htrue⟩ :=
      processVideo_commit force o st hrc
    have hjson : (processVideo force o st).1.jsonStore =
        st.jsonStore ++ [rec'] := by
      cases hro : o.renameOk with
      | false => rw [hfalse hro]
      | true => obtain ⟨np, c, heq, -, -⟩ := htrue hro; rw [heq]
    rw [hjson] at h
    have hrr : rec = rec' := by
      have := List.append_cancel_left h.symm
      simpa using this
    subst hrr
    constructor
    · rw [htrr]
      by_cases ht : t = ""
      · simp [ht]
      · simp [ht]
    · intro hok
      have ht : t = "" := by
        by_cases hnt : a.needsTranscript
        · rw [if_pos hnt, hok] at htr
          cases htr; rfl
        · rw [if_neg hnt] at htr
          cases htr; rfl
      rw [htrr, ht]
      simp
  · have hrc' : reachesCommit force o st = false := by
      cases hb : reachesCommit force o st
      · rfl
      · exact absurd hb hrc
    have hst := processVideo_noCommit force o st hrc'
    rw [hst] at h
    have := congrArg List.length h
    simp at this

/-- C4 witness: the amended theorem applied to the concrete
empty-transcription run. -/
theorem C4_witness :
    ∃ rec, (processVideo false { oBase with transcribeResult := .ok "" }
        st0).1.jsonStore = st0.jsonStore ++ [rec] ∧
      rec.transcript ≠ some "" ∧ rec.transcript = none :=
  ⟨_, rfl,
    (C4_amended_empty_transcript_null false
      { oBase with transcribeResult := .ok "" } st0 _ rfl).1,
    (C4_amended_empty_transcript_null false
      { oBase with transcribeResult := .ok "" } st0 _ rfl).2 rfl⟩

/-- C6 counterexample: `hasMetadata` trims the comment before testing
emptiness, so an asset whose comment attribute is the non-empty string
`" "` is reprocessed: the run writes to both stores and renames the
file, contradicting the claim's "performs no writes … leaves the
file's path unchanged" for every non-empty comment. -/
theorem C6_counterexample :
    (⟨[], [], "d/a.mov", " "⟩ : PvState).comment ≠ "" ∧
    (processVideo false oBase
      ⟨[], [], "d/a.mov", " "⟩).1.jsonStore.length = 1 ∧
    (processVideo false oBase
      ⟨[], [], "d/a.mov", " "⟩).1.txtStore.length = 1 ∧
    (processVideo false oBase ⟨[], [], "d/a.mov", " "⟩).1.filePath ≠
      "d/a.mov" := by
  refine ⟨by decide, rfl, rfl, by decide⟩

/-- C6 amended: for every asset whose comment attribute is non-blank
(non-empty after trimming whitespace, which is how `hasMetadata` tests
it), running the orchestrator with `force = false` performs no writes
to either store and leaves the path unchanged — the whole run is a
no-op. -/
theorem C6_amended_skip_annotated (o : PvOracles) (st : PvState)
    (h : strTrim st.comment ≠ "") :
    processVideo false o st = (st, none) := by
  have hm : hasMetadata st = true := by
    simp [hasMetadata, h]
  simp [processVideo, hm]

/-- C6 witness: a properly annotated asset is skipped untouched. -/
theorem C6_witness :
    strTrim "kids at the beach" ≠ "" ∧
    processVideo false oBase ⟨[], [], "d/a.mov", "kids at the beach"⟩ =
      (⟨[], [], "d/a.mov", "kids at the beach"⟩, none) :=
  ⟨by decide, C6_amended_skip_annotated oBase
    ⟨[], [], "d/a.mov", "kids at the beach"⟩ (by decide)⟩

/-- C9: if writing the comment attribute fails during the commit step
(`setMacMetadataXattr` catches its own errors), `processVideo` still
completes successfully: the record stays appended to both stores, the
file stays renamed to the path recorded in the record, and the comment
is left unchanged — so an initially unmarked asset stays unmarked, and
a later run with `force = false` that again reaches the commit step
appends a second record. -/
theorem C9_comment_failure_nonfatal (force : Bool) (o : PvOracles)
    (st : PvState) (hrc : reachesCommit force o st = true)
    (hr : o.renameOk = true) (hc : o.commentOk = false) :
    (processVideo force o st).2 = none ∧
    (processVideo force o st).1.comment = st.comment ∧
    (∃ rec, (processVideo force o st).1.txtStore =
        st.txtStore ++ [rec] ∧
      (processVideo force o st).1.jsonStore = st.jsonStore ++ [rec] ∧
      (processVideo force o st).1.filePath = rec.path) ∧
    (∀ o2, reachesCommit false o2 (processVideo force o st).1 = true →
      ∃ rec2,
        (processVideo false o2 (processVideo force o st).1).1.jsonStore
          = (processVideo force o st).1.jsonStore ++ [rec2]) := by
  obtain ⟨a, t, rec, -, -, -, -, htrue⟩ :=
    processVideo_commit force o st hrc
  obtain ⟨np, c, heq, hnp, hcc⟩ := htrue hr
  refine ⟨?_, ?_, ⟨rec, ?_, ?_, ?_⟩, ?_⟩
  · rw [heq]
  · rw [heq]; exact hcc hc
  · rw [heq]
  · rw [heq]
  · rw [heq]; exact hnp
  · intro o2 hrc2
    exact processVideo_commit_json false o2 _ hrc2

/-- C9 witness: the concrete comment-write-failing run succeeds,
leaves the marker empty, and a second identical run appends again. -/
theorem C9_witness :
    reachesCommit false { oBase with commentOk := false } st0 = true ∧
    ((processVideo false { oBase with commentOk := false } st0).2 =
        none ∧
      (processVideo false { oBase with commentOk := false }
        st0).1.comment = st0.comment ∧
      (∃ rec, (processVideo false { oBase with commentOk := false }
          st0).1.txtStore = st0.txtStore ++ [rec] ∧
        (processVideo false { oBase with commentOk := false }
          st0).1.jsonStore = st0.jsonStore ++ [rec] ∧
        (processVideo false { oBase with commentOk := false }
          st0).1.filePath = rec.path) ∧
      (∀ o2, reachesCommit false o2
          (processVideo false { oBase with commentOk := false }
            st0).1 = true →
        ∃ rec2, (processVideo false o2
            (processVideo false { oBase with commentOk := false }
              st0).1).1.jsonStore =
          (processVideo false { oBase with commentOk := false }
            st0).1.jsonStore ++ [rec2])) :=
  ⟨rfl, C9_comment_failure_nonfatal false
    { oBase with commentOk := false } st0 rfl rfl rfl⟩

/-- C5 counterexample: (a) a persistently transient encode error is
attempted 4 times with 3 retry waits — not "at most 3 attempts";
(b) a metadata (`ffprobe`) error whose description matches none of the
transient substrings is nevertheless retried 3 times — not "fails
immediately with zero retries". -/
theorem C5_counterexample :
    isTransient "read timeout" = true ∧
    (compressVideo (fun _ => ⟨.ok, .ok, .ok, .err "read timeout"⟩) 0 =
      { success := false, attempts := 4, waits := 3,
        error := some "read timeout" }) ∧
    ¬((compressVideo (fun _ => ⟨.ok, .ok, .ok, .err "read timeout"⟩)
        0).attempts ≤ 3) ∧
    isTransient "Invalid data found when processing input" = false ∧
    (compressVideo
        (fun _ => ⟨.ok, .ok,
          .err "Invalid data found when processing input", .ok⟩) 0 =
      { success := false, attempts := 4, waits := 3,
        error := some ("Failed to get video metadata after 3 attempts: "
          ++ "Invalid data found when processing input") }) := by
  have htr : isTransient "read timeout" = true := by decide
  have hntr : isTransient "Invalid data found when processing input"
      = false := by decide
  have henc : compressVideo
      (fun _ => ⟨.ok, .ok, .ok, .err "read timeout"⟩) 0 =
      { success := false, attempts := 4, waits := 3,
        error := some "read timeout" } := by
    have h3 := cv_encode_fail
      (fun _ => ⟨.ok, .ok, .ok, .err "read timeout"⟩) 3 "read timeout"
      rfl rfl rfl rfl (by simp [MAX_RETRIES])
    have h2 := cv_encode_retry
      (fun _ => ⟨.ok, .ok, .ok, .err "read timeout"⟩) 2 "read timeout"
      rfl rfl rfl rfl (by decide) htr
    have h1 := cv_encode_retry
      (fun _ => ⟨.ok, .ok, .ok, .err "read timeout"⟩) 1 "read timeout"
      rfl rfl rfl rfl (by decide) htr
    have h0 := cv_encode_retry
      (fun _ => ⟨.ok, .ok, .ok, .err "read timeout"⟩) 0 "read timeout"
      rfl rfl rfl rfl (by decide) htr
    rw [h0, h1, h2, h3]
    rfl
  have hmeta : compressVideo
      (fun _ => ⟨.ok, .ok,
        .err "Invalid data found when processing input", .ok⟩) 0 =
      { success := false, attempts := 4, waits := 3,
        error := some ("Failed to get video metadata after 3 attempts: "
          ++ "Invalid data found when processing input") } := by
    have h3 := cv_meta_final
      (fun _ => ⟨.ok, .ok,
        .err "Invalid data found when processing input", .ok⟩) 3
      "Invalid data found when processing input" rfl rfl rfl
      (by decide)
    have h2 := cv_meta_retry
      (fun _ => ⟨.ok, .ok,
        .err "Invalid data found when processing input", .ok⟩) 2
      "Invalid data found when processing input" rfl rfl rfl (by decide)
    have h1 := cv_meta_retry
      (fun _ => ⟨.ok, .ok,
        .err "Invalid data found when processing input", .ok⟩) 1
      "Invalid data found when processing input" rfl rfl rfl (by decide)
    have h0 := cv_meta_retry
      (fun _ => ⟨.ok, .ok,
        .err "Invalid data found when processing input", .ok⟩) 0
      "Invalid data found when processing input" rfl rfl rfl (by decide)
    rw [h0, h1, h2, h3]
    rfl
  refine ⟨htr, henc, ?_, hntr, hmeta⟩
  rw [henc]
  decide

/-- C5 amended: `compressVideo` makes at most 4 attempts — one initial
attempt plus up to `MAX_RETRIES = 3` retries — with a fixed delay
before each retry; an encode-stage failure is retried only while the
error description matches one of the transient substrings (`ECANCELED`,
`read`, `I/O`, `operation canceled`), and a non-matching encode error
fails immediately with zero retry waits (input-access and
metadata-probe failures, by contrast, are retried regardless of their
description).  A transient encode error on attempts 1 and 2 followed
by success on attempt 3 completes with exactly 2 retry waits. -/
theorem C5_amended_retry_policy (att : Nat → AttemptSpec) :
    (compressVideo att 0).attempts ≤ MAX_RETRIES + 1 ∧
    (∀ m, att 0 = ⟨.ok, .ok, .ok, .err m⟩ → isTransient m = false →
      compressVideo att 0 =
        { success := false, attempts := 1, waits := 0,
          error := some m }) ∧
    (∀ m0 m1, isTransient m0 = true → isTransient m1 = true →
      att 0 = ⟨.ok, .ok, .ok, .err m0⟩ →
      att 1 = ⟨.ok, .ok, .ok, .err m1⟩ →
      att 2 = ⟨.ok, .ok, .ok, .ok⟩ →
      compressVideo att 0 =
        { success := true, attempts := 3, waits := 2, error := none }) := by
  refine ⟨?_, ?_, ?_⟩
  · have := compressVideo_attempts_le att MAX_RETRIES 0 (by omega)
    omega
  · intro m hatt htr
    exact cv_encode_fail att 0 m (by rw [hatt]) (by rw [hatt])
      (by rw [hatt]) (by rw [hatt])
      (by rintro ⟨-, h⟩; rw [htr] at h; cases h)
  · intro m0 m1 htr0 htr1 hatt0 hatt1 hatt2
    have h2 := cv_success att 2 (by rw [hatt2]) (by rw [hatt2])
      (by rw [hatt2]) (by rw [hatt2])
    have h1 := cv_encode_retry att 1 m1 (by rw [hatt1]) (by rw [hatt1])
      (by rw [hatt1]) (by rw [hatt1]) (by decide) htr1
    have h0 := cv_encode_retry att 0 m0 (by rw [hatt0]) (by rw [hatt0])
      (by rw [hatt0]) (by rw [hatt0]) (by decide) htr0
    rw [h0, h1, h2]
    rfl

/-- C5 witness: the amended theorem's retry scenario at a concrete
attempt sequence — transient on the first two attempts, success on the
third, finishing with exactly 2 waits. -/
theorem C5_witness :
    isTransient "read timeout" = true ∧
    compressVideo
      (fun n => if n < 2 then ⟨.ok, .ok, .ok, .err "read timeout"⟩
        else ⟨.ok, .ok, .ok, .ok⟩) 0 =
      { success := true, attempts := 3, waits := 2, error := none } :=
  ⟨by decide,
    (C5_amended_retry_policy
      (fun n => if n < 2 then ⟨.ok, .ok, .ok, .err "read timeout"⟩
        else ⟨.ok, .ok, .ok, .ok⟩)).2.2
      "read timeout" "read timeout" (by decide) (by decide)
      rfl rfl rfl⟩

/-- The files present after a successful clobber iteration. -/
lemma clobberStep_true_files (dir f : String) (pw : Bool)
    (st : ClobberState) :
    (clobberStep dir f true pw st).files =
      addP (removeP (removeP (addP st.files (clobberOutputPath dir f))
        f) (clobberOutputPath dir f)) (replaceMovSuffix f) := by
  simp only [clobberStep]
  split
  next => split <;> rfl
  next h => exact absurd trivial h

/-- The files present after a failed clobber iteration. -/
lemma clobberStep_false_files (dir f : String) (pw : Bool)
    (st : ClobberState) :
    (clobberStep dir f false pw st).files =
      if pw then addP st.files (clobberOutputPath dir f)
      else st.files := by
  simp only [clobberStep]
  split
  next h => simp at h
  next => split <;> rfl

/-- The directories present after a successful clobber iteration. -/
lemma clobberStep_true_dirs (dir f : String) (pw : Bool)
    (st : ClobberState) :
    (clobberStep dir f true pw st).dirs =
      if tempEmptyB (clobberStep dir f true pw st).files
          (dir ++ "/temp_output") = true then
        removeP (addP st.dirs (dir ++ "/temp_output"))
          (dir ++ "/temp_output")
      else addP st.dirs (dir ++ "/temp_output") := by
  rw [clobberStep_true_files]
  simp only [clobberStep]
  split
  next =>
    split
    next h => rfl
    next h => rfl
  next h => exact absurd trivial h

/-- The staging path always carries the `.mp4` suffix. -/
lemma clobberOutputPath_mp4 (dir f : String) :
    endsWithL (clobberOutputPath dir f) ".mp4" = true :=
  endsWithL_append (dir ++ "/temp_output/" ++ basenameDropMov f) ".mp4"

/-- C7: in clobber mode, for every input file ending in `".mov"` whose
compression succeeds, afterwards the original path no longer exists,
the sibling `.mp4` path exists, and the staging temp directory is
removed when it is empty; when compression fails the original file is
left in place. -/
theorem C7_clobber_replaces_original (dir f : String) (pw : Bool)
    (st : ClobberState) (hmov : endsWithL f ".mov" = true) :
    (f ∉ (clobberStep dir f true pw st).files ∧
      strDropRight f 4 ++ ".mp4" ∈ (clobberStep dir f true pw st).files ∧
      (tempEmptyB (clobberStep dir f true pw st).files
          (dir ++ "/temp_output") = true →
        dir ++ "/temp_output" ∉ (clobberStep dir f true pw st).dirs)) ∧
    (f ∈ st.files → f ∈ (clobberStep dir f false pw st).files) := by
  have hrepl : replaceMovSuffix f = strDropRight f 4 ++ ".mp4" := by
    rw [replaceMovSuffix, if_pos hmov]
  have hfin : strDropRight f 4 ++ ".mp4" ≠ f := replaceMov_ne hmov
  have hout : clobberOutputPath dir f ≠ f := by
    intro hEq
    have h1 := clobberOutputPath_mp4 dir f
    rw [hEq] at h1
    exact not_mov_and_mp4 hmov h1
  refine ⟨⟨?_, ?_, ?_⟩, ?_⟩
  · rw [clobberStep_true_files, hrepl]
    simp only [mem_addP, mem_removeP]
    rintro (h | ⟨⟨⟨-, h⟩, -⟩, -⟩)
    · exact hfin h.symm
    · exact h rfl
  · rw [clobberStep_true_files, hrepl]
    simp [mem_addP]
  · intro hte
    rw [clobberStep_true_dirs, if_pos hte]
    simp [mem_removeP]
  · intro hf
    rw [clobberStep_false_files]
    cases pw with
    | false => simpa using hf
    | true =>
      simp only [if_true, mem_addP]
      exact Or.inr ⟨hf, fun h => hout h.symm⟩

/-- C7 witness: the concrete asset `d/a.mov` is replaced by `d/a.mp4`
and the emptied staging directory disappears. -/
theorem C7_witness :
    endsWithL "d/a.mov" ".mov" = true ∧
    (("d/a.mov" ∉
        (clobberStep "d" "d/a.mov" true false
          ⟨["d/a.mov"], ["d"]⟩).files ∧
      strDropRight "d/a.mov" 4 ++ ".mp4" ∈
        (clobberStep "d" "d/a.mov" true false
          ⟨["d/a.mov"], ["d"]⟩).files ∧
      (tempEmptyB (clobberStep "d" "d/a.mov" true false
            ⟨["d/a.mov"], ["d"]⟩).files ("d" ++ "/temp_output") =
          true →
        "d" ++ "/temp_output" ∉
          (clobberStep "d" "d/a.mov" true false
            ⟨["d/a.mov"], ["d"]⟩).dirs)) ∧
     ("d/a.mov" ∈ (⟨["d/a.mov"], ["d"]⟩ : ClobberState).files →
       "d/a.mov" ∈
         (clobberStep "d" "d/a.mov" false false
           ⟨["d/a.mov"], ["d"]⟩).files)) :=
  ⟨by decide, C7_clobber_replaces_original "d" "d/a.mov" false
    ⟨["d/a.mov"], ["d"]⟩ (by decide)⟩

/-- C8: the slug sanitization chain of `generateShortName` (lowercase,
replace characters outside lowercase alphanumeric-and-hyphen with a
hyphen, collapse repeated hyphens, strip leading and trailing hyphens)
is idempotent. -/
theorem C8_sanitize_idempotent (s : String) :
    sanitizeSlug (sanitizeSlug s) = sanitizeSlug s := by
  simp only [sanitizeSlug]
  have h : (String.mk (sanitizeL s.toList)).toList =
      sanitizeL s.toList := rfl
  rw [h, sanitizeL_idem]

/-- C10: the batch selects files case-insensitively (lowercased name
ending in `".mov"`), but the clobber-mode final move substitutes the
suffix case-sensitively; for a selected file whose extension is not
exactly `".mov"` the destination equals the original path, the
compressed output lands under the original (e.g. `.MOV`) name, and no
new `.mp4`-named path is present afterwards (every present path is the
original file's path or pre-existed). -/
theorem C10_case_sensitive_clobber_destination (dir f : String)
    (pw : Bool) (st : ClobberState)
    (hsel : endsWithL (strLower f) ".mov" = true)
    (hne : endsWithL f ".mov" = false) :
    replaceMovSuffix f = f ∧
    endsWithL f ".mp4" = false ∧
    f ∈ (clobberStep dir f true pw st).files ∧
    (∀ p ∈ (clobberStep dir f true pw st).files,
      p = f ∨ p ∈ st.files) := by
  have hrepl : replaceMovSuffix f = f := by
    rw [replaceMovSuffix, if_neg]
    simp [hne]
  refine ⟨hrepl, ?_, ?_, ?_⟩
  · cases hmp : endsWithL f ".mp4" with
    | false => rfl
    | true =>
      exact absurd hsel
        (by simp [not_mov_and_mp4 · (lower_endsWith_mp4 hmp)])
  · rw [clobberStep_true_files, hrepl]
    simp [mem_addP]
  · intro p hp
    rw [clobberStep_true_files, hrepl] at hp
    simp only [mem_addP, mem_removeP] at hp
    rcases hp with h | ⟨⟨⟨h1 | ⟨h2, -⟩, -⟩, hpo⟩, -⟩
    · exact Or.inl h
    · exact absurd h1 hpo
    · exact Or.inr h2

/-- C10 witness: the selected file `d/A.MOV` keeps its `.MOV` name
after a successful clobber run and no `.mp4` path appears. -/
theorem C10_witness :
    endsWithL (strLower "d/A.MOV") ".mov" = true ∧
    endsWithL "d/A.MOV" ".mov" = false ∧
    (replaceMovSuffix "d/A.MOV" = "d/A.MOV" ∧
      endsWithL "d/A.MOV" ".mp4" = false ∧
      "d/A.MOV" ∈ (clobberStep "d" "d/A.MOV" true false
        ⟨["d/A.MOV"], ["d"]⟩).files ∧
      (∀ p ∈ (clobberStep "d" "d/A.MOV" true false
          ⟨["d/A.MOV"], ["d"]⟩).files,
        p = "d/A.MOV" ∨
          p ∈ (⟨["d/A.MOV"], ["d"]⟩ : ClobberState).files)) :=
  ⟨by decide, by decide,
    C10_case_sensitive_clobber_destination "d" "d/A.MOV" false
      ⟨["d/A.MOV"], ["d"]⟩ (by decide) (by decide)⟩

end Dusty
